import Mathlib

/-!
# Verification of the Venue/Event Filter-and-Dedup Engine

Shallow embedding of the client-side filtering / deduplication / date-index
logic of the Dubai event-discovery web client, together with proofs of the
specified properties.

Conventions of the embedding:
* JavaScript `undefined`/`null` optional fields become `Option _`;
  JS string truthiness (`""` is falsy) is modelled explicitly.
* A JS `Map` (insertion-ordered) becomes an association list
  `List (String × α)`: `Map.set` on a fresh key appends at the end,
  `Map.set` on a present key replaces the value in place.
* JS `Date` parsing/formatting is an external primitive (per the spec's
  external-interface section); it is abstracted as a `DateModel` record of
  functions, where `parseMs s = none` models an Invalid Date (`NaN` time).
* Machine numbers that only pass through the pipeline are modelled as `ℚ`
  (ratings, coordinates); all arithmetic the claims depend on is on
  `Nat`/`Int`.
-/

/-! ## Generic association-list machinery (JS `Map` model) -/

/-- First-match association-list lookup (`Map.get`). -/
def lookupA {α : Type} : List (String × α) → String → Option α
  | [], _ => none
  | (k, v) :: rest, key => if k = key then some v else lookupA rest key

/-- Replace the value at the first occurrence of `key`, keeping its position
(`Map.set` on an existing key). -/
def replaceA {α : Type} : List (String × α) → String → α → List (String × α)
  | [], _, _ => []
  | (k, v) :: rest, key, c =>
    if k = key then (key, c) :: rest else (k, v) :: replaceA rest key c

/-- One step of map-based deduplication: insert the element under its key if
the key is fresh, otherwise replace the stored element when `better new old`
holds (`Map.set` semantics). -/
def dedupStep {α : Type} (keyOf : α → String) (better : α → α → Bool)
    (m : List (String × α)) (c : α) : List (String × α) :=
  match lookupA m (keyOf c) with
  | none => m ++ [(keyOf c, c)]
  | some old => if better c old then replaceA m (keyOf c) c else m

/-- Fold a card list into the deduplication map. -/
def dedupFold {α : Type} (keyOf : α → String) (better : α → α → Bool)
    (cards : List α) : List (String × α) :=
  cards.foldl (dedupStep keyOf better) []

/-- Deduplicate a list: `Array.from(map.values())`. -/
def dedupBy {α : Type} (keyOf : α → String) (better : α → α → Bool)
    (cards : List α) : List α :=
  (dedupFold keyOf better cards).map Prod.snd

/-- The keys of a list in order of first appearance. -/
def firstKeys {α : Type} (keyOf : α → String) (cards : List α) : List String :=
  cards.foldl (fun acc c => if keyOf c ∈ acc then acc else acc ++ [keyOf c]) []

/-- The champion of a non-empty group: fold that replaces the current champion
whenever `better new champion` holds. -/
def champFold {α : Type} (better : α → α → Bool) (c : α) (cs : List α) : α :=
  cs.foldl (fun ch x => if better x ch then x else ch) c

/-- Champion of a (possibly empty) group seeded with an optional incumbent. -/
def champOpt {α : Type} (better : α → α → Bool) : Option α → List α → Option α
  | none, [] => none
  | none, c :: cs => some (champFold better c cs)
  | some ch, cs => some (champFold better ch cs)

/-! ## ASCII models of the JavaScript string primitives

The JS string methods used by the source (`trim`, `toLowerCase`,
`toUpperCase`, `includes`, `split`, `endsWith`, the regexes) are modelled
character-by-character on `List Char` so that they evaluate inside the
kernel. -/

/-- JS whitespace (the ASCII part): space, tab, LF, CR, VT, FF. -/
def isWsChar (c : Char) : Bool :=
  c = ' ' || c = '\t' || c = '\n' || c = '\r' || c.toNat = 11 || c.toNat = 12

/-- `String.prototype.trim`. -/
def jsTrim (s : String) : String :=
  String.mk (((s.toList.dropWhile isWsChar).reverse.dropWhile isWsChar).reverse)

/-- `String.prototype.toLowerCase` (ASCII). -/
def jsToLower (s : String) : String :=
  String.mk (s.toList.map Char.toLower)

/-- `String.prototype.toUpperCase` (ASCII). -/
def jsToUpper (s : String) : String :=
  String.mk (s.toList.map Char.toUpper)

/-- Is the first list a prefix of the second? -/
def isPrefixL : List Char → List Char → Bool
  | [], _ => true
  | _ :: _, [] => false
  | a :: as, b :: bs => a = b && isPrefixL as bs

/-- Does the second list contain the first as a contiguous run? -/
def containsL (needle : List Char) : List Char → Bool
  | [] => isPrefixL needle []
  | c :: rest => isPrefixL needle (c :: rest) || containsL needle rest

/-- `hay.includes(needle)`. -/
def strIncludes (hay needle : String) : Bool :=
  containsL needle.toList hay.toList

/-- Split at the first occurrence of `needle`: returns the part before it and
the part after it, or `none` when `needle` does not occur. -/
def breakFirst (needle : List Char) : List Char → Option (List Char × List Char)
  | [] => if isPrefixL needle [] then some ([], []) else none
  | c :: rest =>
    if isPrefixL needle (c :: rest) then some ([], (c :: rest).drop needle.length)
    else (breakFirst needle rest).map (fun p => (c :: p.1, p.2))

/-- `s.endsWith(suffix)`. -/
def jsEndsWith (s suffix : String) : Bool :=
  isPrefixL suffix.toList.reverse s.toList.reverse

/-- The character class `[a-zA-Z]`. -/
def isAsciiLetter (c : Char) : Bool :=
  ('a' ≤ c && c ≤ 'z') || ('A' ≤ c && c ≤ 'Z')

/-- Number of `[a-zA-Z]` matches in a string (the `match(/[a-zA-Z]/g)` count). -/
def countAlpha (s : String) : Nat :=
  (s.toList.filter isAsciiLetter).length

/-- The character class `\w` = `[A-Za-z0-9_]`. -/
def isWordChar (c : Char) : Bool :=
  isAsciiLetter c || c.isDigit || c = '_'

/-- `AM`/`PM` suffix of the time regex, case-insensitive, at end of input. -/
def matchAmPm : List Char → Bool
  | [a, m] => (a = 'A' || a = 'a' || a = 'P' || a = 'p') && (m = 'M' || m = 'm')
  | _ => false

/-- Part of the time regex after the colon: two digits, an optional
whitespace, then `AM`/`PM` at end of input. -/
def afterColon : List Char → Bool
  | d1 :: d2 :: rest =>
    d1.isDigit && d2.isDigit &&
      (matchAmPm rest ||
        (match rest with
         | w :: rest2 => isWsChar w && matchAmPm rest2
         | [] => false))
  | _ => false

/-- The regex `/^\d{1,2}:\d{2}\s?(AM|PM)$/i` on a character list. -/
def singleTimeL : List Char → Bool
  | c1 :: ':' :: rest => c1.isDigit && afterColon rest
  | c1 :: c2 :: ':' :: rest => c1.isDigit && c2.isDigit && afterColon rest
  | _ => false

/-- JS truthiness of an optional string (`undefined`, `null` and `""` are
falsy). -/
def truthyS : Option String → Bool
  | none => false
  | some s => !(s = "")

/-! ## Data model

`SupabaseVenueEvent` is the raw record shape consumed by
`transformSupabaseDataToStackedCards`; `Card` is the produced
event/venue pair. Optional JS fields are `Option`; `music_genre` and
`event_vibe` may arrive as a string or as an array of strings. -/

/-- A `{ primary, secondary? }` category tag. -/
structure EventCategory where
  primary : String
  secondary : Option String := none
deriving DecidableEq, Repr

/-- The four attribute facets of a raw record. -/
structure AttributeTags where
  venue : Option (List String) := none
  energy : Option (List String) := none
  status : Option (List String) := none
  timing : Option (List String) := none
deriving DecidableEq, Repr

/-- A JS value that is either a string or an array of strings. -/
inductive StrOrList where
  | str : String → StrOrList
  | arr : List String → StrOrList
deriving DecidableEq, Repr

/-- Raw Supabase venue/event record (the `SupabaseVenueEvent` interface). -/
structure SupabaseVenueEvent where
  event_id : Option String := none
  event_name : Option String := none
  artist : Option String := none
  event_time : Option String := none
  event_date : Option String := none
  ticket_price : Option String := none
  special_offers : Option String := none
  venue_id : Option Int := none
  name : Option String := none
  rating : Option ℚ := none
  rating_count : Option Int := none
  area : Option String := none
  final_instagram : Option String := none
  phone : Option String := none
  venue_lat : Option ℚ := none
  venue_lng : Option ℚ := none
  event_categories : Option (List EventCategory) := none
  attributes : Option AttributeTags := none
  music_genre : Option StrOrList := none
  event_vibe : Option StrOrList := none
  confidence_score : Option ℚ := none
  analysis_notes : Option String := none
  website_social : Option String := none
  website : Option String := none
  venue_website : Option String := none
  address : Option String := none
  venue_address : Option String := none
  venue_highlights : Option String := none
  venue_atmosphere : Option String := none
deriving DecidableEq, Repr

/-- The `event` half of a produced card. -/
structure CardEvent where
  id : String
  venue_id : String
  event_name : String
  event_subtitle : String
  event_time_start : String
  event_time_end : String
  event_date : String
  event_entry_price : String
  event_offers : String
  category : String
  artist : Option String
  music_genre : Option String
  event_vibe : Option String
  confidence_score : Option ℚ
  analysis_notes : Option String
  website_social : Option String
  event_categories : Option (List EventCategory)
deriving DecidableEq, Repr

/-- The `venue` half of a produced card. -/
structure CardVenue where
  id : String
  venue_name : String
  venue_rating : ℚ
  venue_review_count : Int
  venue_location : String
  venue_instagram : Option String
  venue_phone : Option String
  venue_coordinates : Option (ℚ × ℚ)
  venue_website : Option String
  venue_address : Option String
  venue_highlights : Option String
  venue_atmosphere : Option String
  attributes : Option AttributeTags
deriving DecidableEq, Repr

/-- A produced card: one event paired with its venue. -/
structure Card where
  event : CardEvent
  venue : CardVenue
deriving DecidableEq, Repr

/-! ## The record-to-card transformation (`stacked-card-adapter`) -/

/-- `Array.prototype.join(sep)`. -/
def joinSep (sep : String) : List String → String
  | [] => ""
  | [x] => x
  | x :: xs => x ++ sep ++ joinSep sep xs

/-- `parseEventTime`: split a `"start - end"` range at the `" - "`
separators (first part, then the part up to the next separator), accept a
single `H:MM AM/PM` time, and yield empty strings otherwise. Total by
construction: the JS function never throws. -/
def parseEventTime (event_time : Option String) : String × String :=
  match event_time with
  | none => ("", "")
  | some s =>
    let trimmed := jsTrim s
    match breakFirst (" - ".toList) trimmed.toList with
    | some (before, after) =>
      let second :=
        match breakFirst (" - ".toList) after with
        | some (b2, _) => b2
        | none => after
      (jsTrim (String.mk before), jsTrim (String.mk second))
    | none =>
      if singleTimeL trimmed.toList then (trimmed, "") else ("", "")

/-- `isValidTitle`: non-empty, trimmed length at least 4, no trailing
`"..."`, and at least half the characters are letters. -/
def isValidTitle (str : Option String) : Bool :=
  match str with
  | none => false
  | some s =>
    if s = "" then false
    else
      let trimmed := jsTrim s
      if trimmed.toList.length < 4 then false
      else if jsEndsWith trimmed "..." then false
      else decide (trimmed.toList.length ≤ 2 * countAlpha trimmed)

/-- `selectBestTitle`: first valid candidate among event name, artist,
venue name; placeholder `"Event"` otherwise. -/
def selectBestTitle (event_name artist venue_name : Option String) : String :=
  if isValidTitle event_name then jsTrim (event_name.getD "")
  else if isValidTitle artist then jsTrim (artist.getD "")
  else if isValidTitle venue_name then jsTrim (venue_name.getD "")
  else "Event"

/-- `calculateDataCompleteness`: weighted count of the populated fields. -/
def calculateDataCompleteness (card : Card) : Nat :=
  (if truthyS card.event.artist then 2 else 0)
  + (if truthyS card.event.music_genre then 2 else 0)
  + (if truthyS card.event.event_vibe then 2 else 0)
  + (if truthyS card.event.analysis_notes then 1 else 0)
  + (if card.event.event_subtitle = "" then 0 else 1)
  + (if truthyS card.venue.venue_instagram then 1 else 0)
  + (if truthyS card.venue.venue_phone then 1 else 0)
  + (if truthyS card.venue.venue_website then 1 else 0)
  + (if truthyS card.venue.venue_address then 1 else 0)
  + (if truthyS card.venue.venue_highlights then 1 else 0)

/-- `${venue.venue_id}` inside a template literal (`undefined` when absent). -/
def venueIdTemplate : Option Int → String
  | none => "undefined"
  | some n => toString n

/-- `venue.venue_id?.toString() || ''`. -/
def venueIdStr : Option Int → String
  | none => ""
  | some n => toString n

/-- `venue.event_categories?.[0]?.primary || 'Music Events'`. -/
def firstCatPrimary : Option (List EventCategory) → String
  | some (c :: _) => if c.primary = "" then "Music Events" else c.primary
  | _ => "Music Events"

/-- The `subtitleParts` accumulation of the transformation: first category
secondary (when truthy), first venue attribute, then first status attribute
or else first energy attribute. -/
def subtitleParts (venue : SupabaseVenueEvent) : List String :=
  (match venue.event_categories with
   | some (c :: _) =>
     (match c.secondary with
      | some s => if s = "" then [] else [s]
      | none => [])
   | _ => []) ++
  (match venue.attributes with
   | some attrs =>
     (match attrs.venue with
      | some (x :: _) => [x]
      | _ => []) ++
     (match attrs.status with
      | some (x :: _) => [x]
      | _ =>
        match attrs.energy with
        | some (x :: _) => [x]
        | _ => [])
   | none => [])

/-- `Array.isArray(x) ? x.join(sep) : x` for the string-or-array fields. -/
def strOrListJoin (sep : String) : Option StrOrList → Option String
  | none => none
  | some (.str s) => some s
  | some (.arr l) => some (joinSep sep l)

/-- Step 1 of `transformSupabaseDataToStackedCards`: one raw record at one
array index to one card. `todayISO` is `new Date().toISOString().split('T')[0]`
passed in explicitly (the model is a pure function of the current day). -/
def toCard (todayISO : String) (index : Nat) (venue : SupabaseVenueEvent) : Card :=
  let timing := parseEventTime venue.event_time
  { event := {
      id := if truthyS venue.event_id then venue.event_id.getD ""
            else "event-" ++ venueIdTemplate venue.venue_id ++ "-" ++ toString index,
      venue_id := venueIdStr venue.venue_id,
      event_name := selectBestTitle venue.event_name venue.artist venue.name,
      event_subtitle := jsToUpper (joinSep " | " (subtitleParts venue)),
      event_time_start := timing.1,
      event_time_end := timing.2,
      event_date := if truthyS venue.event_date then venue.event_date.getD "" else todayISO,
      event_entry_price :=
        if truthyS venue.ticket_price then "AED " ++ venue.ticket_price.getD ""
        else "Contact for pricing",
      event_offers :=
        if truthyS venue.special_offers then venue.special_offers.getD ""
        else "No special offers",
      category := firstCatPrimary venue.event_categories,
      artist := venue.artist,
      music_genre := strOrListJoin ", " venue.music_genre,
      event_vibe := strOrListJoin " | " venue.event_vibe,
      confidence_score := venue.confidence_score,
      analysis_notes := venue.analysis_notes,
      website_social := venue.website_social,
      event_categories := venue.event_categories },
    venue := {
      id := venueIdStr venue.venue_id,
      venue_name := if truthyS venue.name then venue.name.getD "" else "Venue",
      venue_rating := match venue.rating with
        | some r => if r = 0 then 4 else r
        | none => 4,
      venue_review_count := (venue.rating_count).getD 0,
      venue_location := if truthyS venue.area then venue.area.getD "" else "Dubai",
      venue_instagram := venue.final_instagram,
      venue_phone := venue.phone,
      venue_coordinates :=
        match venue.venue_lat, venue.venue_lng with
        | some la, some ln => if la ≠ 0 ∧ ln ≠ 0 then some (la, ln) else none
        | _, _ => none,
      venue_website := if truthyS venue.website then venue.website else venue.venue_website,
      venue_address := if truthyS venue.address then venue.address else venue.venue_address,
      venue_highlights := venue.venue_highlights,
      venue_atmosphere := venue.venue_atmosphere,
      attributes := venue.attributes } }

/-- `List.map` with the element's array index (the `(venue, index) => ...`
callback of `Array.prototype.map`). -/
def mapWithIdx {α β : Type} (f : Nat → α → β) : Nat → List α → List β
  | _, [] => []
  | i, x :: xs => f i x :: mapWithIdx f (i + 1) xs

/-- Step 1 of `transformSupabaseDataToStackedCards` over the whole input. -/
def transformStep1 (todayISO : String) (venues : List SupabaseVenueEvent) : List Card :=
  mapWithIdx (toCard todayISO) 0 venues

/-- The composite deduplication key
`${venueId}|${eventName.toLowerCase().trim()}|${eventDate}|${eventTimeStart}`. -/
def cardKey (card : Card) : String :=
  card.venue.id ++ "|" ++ jsTrim (jsToLower card.event.event_name) ++ "|"
    ++ card.event.event_date ++ "|" ++ card.event.event_time_start

/-- Replacement test of the composite-key dedup: strictly more complete data. -/
def betterScore (newCard oldCard : Card) : Bool :=
  decide (calculateDataCompleteness newCard > calculateDataCompleteness oldCard)

/-- Step 2 of `transformSupabaseDataToStackedCards`: composite-key
deduplication keeping the more complete card. -/
def dedupCards (cards : List Card) : List Card :=
  dedupBy cardKey betterScore cards

/-- `transformSupabaseDataToStackedCards` (with the current day passed in). -/
def transformSupabaseDataToStackedCards (todayISO : String)
    (venues : List SupabaseVenueEvent) : List Card :=
  dedupCards (transformStep1 todayISO venues)

/-! ## Date primitives

JS `Date` is an external primitive (spec §6): it is abstracted as a record
of functions. `parseMs s` is `new Date(s).getTime()` with `none` for an
invalid date (`NaN`); `dayKey t` is `new Date(t).toDateString()`, the
canonical calendar-day key; `keyTime k` is `new Date(k).getTime()` applied
to a day key (used by the sort comparator); `dayFmt`/`dateFmt` are the
weekday / month-day label formatters; `todayKey` is today's day key. -/

structure DateModel where
  parseMs : String → Option Int
  dayKey : Int → String
  keyTime : String → Int
  dayFmt : Int → String
  dateFmt : Int → String
  todayKey : String

/-- One per-venue date option (`{ day, date, dateKey, isToday }`). -/
structure DateOption where
  day : String
  date : String
  dateKey : String
  isToday : Bool
deriving DecidableEq, Repr

/-! ## The per-venue date index (`venueDateMap`) -/

/-- The contribution of one raw record to the date index: its venue key and
the `DateOption` it would insert, or `none` when the record lacks a truthy
`event_date` or `venue_id` or its date fails to parse. -/
def contribOpt (dm : DateModel) (venue : SupabaseVenueEvent) :
    Option (String × DateOption) :=
  match venue.event_date, venue.venue_id with
  | some ds, some vid =>
    if ds = "" ∨ vid = 0 then none
    else
      match dm.parseMs ds with
      | none => none
      | some t =>
        some (toString vid,
          { day := dm.dayFmt t
            date := dm.dateFmt t
            dateKey := dm.dayKey t
            isToday := dm.dayKey t = dm.todayKey })
  | _, _ => none

/-- One step of the `venueDateMap` accumulation (`allVenues.forEach`). -/
def vdmStep (dm : DateModel) (m : List (String × List DateOption))
    (venue : SupabaseVenueEvent) : List (String × List DateOption) :=
  match contribOpt dm venue with
  | none => m
  | some (venueKey, opt) =>
    match lookupA m venueKey with
    | none => m ++ [(venueKey, [opt])]
    | some existing =>
      if existing.any (fun e => e.dateKey = opt.dateKey) then m
      else replaceA m venueKey (existing ++ [opt])

/-- Ascending sort of a venue's date options by
`new Date(a.dateKey).getTime() - new Date(b.dateKey).getTime()`. -/
def sortDates (dm : DateModel) (l : List DateOption) : List DateOption :=
  List.insertionSort (fun a b => dm.keyTime a.dateKey ≤ dm.keyTime b.dateKey) l

/-- `venueDateMap`: per-venue ordered, de-duplicated date options. -/
def venueDateMap (dm : DateModel) (venues : List SupabaseVenueEvent) :
    List (String × List DateOption) :=
  (venues.foldl (vdmStep dm) []).map (fun p => (p.1, sortDates dm p.2))

/-- The first record of the input contributing the given venue key and date
key (its formatting is the one the index retains). -/
def firstFor (dm : DateModel) (venues : List SupabaseVenueEvent)
    (venueKey dateKey : String) : Option DateOption :=
  ((venues.filterMap (contribOpt dm)).find?
    (fun p => p.1 = venueKey ∧ p.2.dateKey = dateKey)).map Prod.snd

/-- The venue key a record contributes to the date index, if any. -/
def contribKey (dm : DateModel) (venue : SupabaseVenueEvent) : Option String :=
  (contribOpt dm venue).map Prod.fst

/-! ## Mobile card pipeline (`Home` page and `MobileEventList`) -/

/-- `new Date(card.event.event_date).toDateString()`; JS yields the string
`"Invalid Date"` (without throwing) when the date fails to parse. -/
def cardDateKey (dm : DateModel) (card : Card) : String :=
  match dm.parseMs card.event.event_date with
  | some t => dm.dayKey t
  | none => "Invalid Date"

/-- The loose deduplication key `${card.venue.id}|${eventName.toLowerCase().trim()}`. -/
def looseKey (card : Card) : String :=
  card.venue.id ++ "|" ++ jsTrim (jsToLower card.event.event_name)

/-- `Math.abs(new Date(event_date).getTime() - todayTime)`; `none` is `NaN`. -/
def distToToday (dm : DateModel) (todayTime : Int) (card : Card) : Option Nat :=
  (dm.parseMs card.event.event_date).map (fun t => (t - todayTime).natAbs)

/-- Replacement test of the loose dedup: strictly closer to today. Any
comparison against `NaN` is false, exactly as in JS. -/
def betterCloser (dm : DateModel) (todayTime : Int) (newCard oldCard : Card) : Bool :=
  match distToToday dm todayTime newCard, distToToday dm todayTime oldCard with
  | some n, some o => decide (n < o)
  | _, _ => false

/-- The venue+name deduplication of the mobile card list (keep the
occurrence closest to today). -/
def dedupByVenueName (dm : DateModel) (todayTime : Int) (cards : List Card) :
    List Card :=
  dedupBy looseKey (betterCloser dm todayTime) cards

/-- The date post-filter of the mobile card list: with active dates, keep
only cards whose own day key is selected. -/
def postFilterByDates (dm : DateModel) (activeDates : List String)
    (cards : List Card) : List Card :=
  if activeDates.length > 0 then
    cards.filter (fun card => activeDates.contains (cardDateKey dm card))
  else cards

/-- `displayCards` of `MobileEventList`: with active dates, keep only cards
of venues that have at least one indexed date among the active ones. -/
def displayCardsFilter (vdm : List (String × List DateOption))
    (activeDates : List String) (cards : List Card) : List Card :=
  if activeDates.isEmpty then cards
  else
    cards.filter (fun card =>
      match lookupA vdm card.venue.id with
      | none => false
      | some dates =>
        if dates.isEmpty then false
        else dates.any (fun d => activeDates.contains d.dateKey))

/-! ## Smart subtitle (`StackedEventCards.generateSmartSubtitle`) -/

/-- `str.toLowerCase().trim().replace(/[^\w\s]/g, '')`. -/
def normalizeStr (s : String) : String :=
  String.mk (((jsTrim (jsToLower s)).toList).filter
    (fun c => isWordChar c || isWsChar c))

/-- `generateSmartSubtitle`: empty on missing inputs or a blank subtitle;
otherwise suppress the subtitle exactly when its normalized form contains
both normalized names and is not meaningfully longer than their combined
length. -/
def generateSmartSubtitle (eventName venueName subtitle : String) : String :=
  if subtitle = "" ∨ eventName = "" ∨ venueName = "" then ""
  else if jsTrim subtitle = "" then ""
  else
    let normalizedEvent := normalizeStr eventName
    let normalizedVenue := normalizeStr venueName
    let normalizedSubtitle := normalizeStr subtitle
    if containsL normalizedVenue.toList normalizedSubtitle.toList
        && containsL normalizedEvent.toList normalizedSubtitle.toList
        && decide (normalizedSubtitle.toList.length
            < normalizedVenue.toList.length + normalizedEvent.toList.length + 10)
    then "" else subtitle
/-! ## Sample data (used by the witness theorems) -/

/-- A sample raw record without an artist. -/
def sampleRecA : SupabaseVenueEvent :=
  { event_name := some "Glow Party", venue_id := some 1,
    event_date := some "2025-06-01", event_time := some "10:00 PM" }

/-- A duplicate of `sampleRecA` (same venue, name up to case and trailing
space, date and time) carrying an artist. -/
def sampleRecB : SupabaseVenueEvent :=
  { event_name := some "glow party ", artist := some "DJ X", venue_id := some 1,
    event_date := some "2025-06-01", event_time := some "10:00 PM" }

/-- The card of `sampleRecA` (array index 0, a fixed "today"). -/
def sampleCardA : Card := toCard "2025-06-05" 0 sampleRecA

/-- The card of `sampleRecB` (array index 1, a fixed "today"). -/
def sampleCardB : Card := toCard "2025-06-05" 1 sampleRecB

/-- A small concrete date model for witnesses: three parseable date strings
on three consecutive days. -/
def sampleDM : DateModel :=
  { parseMs := fun s =>
      if s = "2025-06-01" then some 100
      else if s = "2025-06-02" then some 200
      else if s = "2025-06-03" then some 300
      else none
    dayKey := fun t => "day" ++ toString t
    keyTime := fun k =>
      if k = "day100" then 100 else if k = "day200" then 200
      else if k = "day300" then 300 else 0
    dayFmt := fun t => "D" ++ toString t
    dateFmt := fun t => "M" ++ toString t
    todayKey := "day200" }

/-- Sample input for the date index: venue 1 has two parseable dates (out
of order), one record lacks a venue id and one date fails to parse. -/
def sampleVenues6 : List SupabaseVenueEvent :=
  [{ venue_id := some 1, event_date := some "2025-06-02" },
   { venue_id := some 1, event_date := some "2025-06-01" },
   { venue_id := none, event_date := some "2025-06-01" },
   { venue_id := some 1, event_date := some "junk" }]

/-- The date options `venueDateMap` produces for venue 1 of `sampleVenues6`. -/
def sampleOpts6 : List DateOption :=
  [{ day := "D100", date := "M100", dateKey := "day100", isToday := false },
   { day := "D200", date := "M200", dateKey := "day200", isToday := true }]

/-! ## Basic lemmas about the association-list machinery -/

theorem lookupA_append_single {α : Type} (m : List (String × α)) (k2 k : String) (v : α) :
    lookupA (m ++ [(k2, v)]) k =
      match lookupA m k with
      | some w => some w
      | none => if k2 = k then some v else none := by
  induction m with
  | nil => simp [lookupA]
  | cons p rest ih =>
    obtain ⟨pk, pv⟩ := p
    by_cases h : pk = k <;> simp [lookupA, h, ih]

theorem lookupA_replaceA {α : Type} (m : List (String × α)) (k2 k : String) (v : α) :
    lookupA (replaceA m k2 v) k =
      if k = k2 then
        match lookupA m k with
        | some _ => some v
        | none => none
      else lookupA m k := by
  induction m with
  | nil => by_cases h : k = k2 <;> simp [lookupA, replaceA, h]
  | cons p rest ih =>
    obtain ⟨pk, pv⟩ := p
    by_cases h2 : pk = k2
    · by_cases hk : pk = k
      · have hkk2 : k = k2 := hk ▸ h2
        simp [lookupA, replaceA, h2, hk, hkk2]
      · have hkk2 : ¬ k = k2 := fun h => hk (h2.trans h.symm)
        have hk2k : ¬ k2 = k := fun h => hkk2 h.symm
        simp [lookupA, replaceA, h2, hk2k, hkk2]
    · by_cases hk : pk = k
      · have hkk2 : ¬ k = k2 := fun h => h2 (hk.trans h)
        simp [lookupA, replaceA, h2, hk, hkk2]
      · simp [lookupA, replaceA, h2, hk, ih]

theorem mapFst_replaceA {α : Type} (m : List (String × α)) (k : String) (v : α) :
    (replaceA m k v).map Prod.fst = m.map Prod.fst := by
  induction m with
  | nil => simp [replaceA]
  | cons p rest ih =>
    obtain ⟨pk, pv⟩ := p
    by_cases h : pk = k
    · subst h; simp [replaceA]
    · simp [replaceA, h, ih]

theorem lookupA_eq_none_iff {α : Type} (m : List (String × α)) (k : String) :
    lookupA m k = none ↔ k ∉ m.map Prod.fst := by
  induction m with
  | nil => simp [lookupA]
  | cons p rest ih =>
    obtain ⟨pk, pv⟩ := p
    by_cases h : pk = k
    · subst h; simp [lookupA]
    · simp [lookupA, h, ih, Ne.symm h]

theorem lookupA_mem {α : Type} (m : List (String × α)) (k : String) (v : α)
    (h : lookupA m k = some v) : (k, v) ∈ m := by
  induction m with
  | nil => simp [lookupA] at h
  | cons p rest ih =>
    obtain ⟨pk, pv⟩ := p
    by_cases hk : pk = k
    · subst hk
      simp [lookupA] at h
      simp [h]
    · simp [lookupA, hk] at h
      exact List.mem_cons_of_mem _ (ih h)

theorem mem_replaceA {α : Type} (m : List (String × α)) (k : String) (v : α)
    (p : String × α) (h : p ∈ replaceA m k v) : p ∈ m ∨ p = (k, v) := by
  induction m with
  | nil => simp [replaceA] at h
  | cons q rest ih =>
    obtain ⟨qk, qv⟩ := q
    by_cases hk : qk = k
    · subst hk
      simp [replaceA] at h
      rcases h with h | h
      · exact Or.inr h
      · exact Or.inl (List.mem_cons_of_mem _ h)
    · simp [replaceA, hk] at h
      rcases h with h | h
      · exact Or.inl (by simp [h])
      · rcases ih h with h2 | h2
        · exact Or.inl (List.mem_cons_of_mem _ h2)
        · exact Or.inr h2

/-! ## Structure of the deduplication fold -/

theorem dedupFold_keys_aux {α : Type} (keyOf : α → String) (better : α → α → Bool)
    (cards : List α) (m : List (String × α)) :
    (cards.foldl (dedupStep keyOf better) m).map Prod.fst =
      cards.foldl (fun acc c => if keyOf c ∈ acc then acc else acc ++ [keyOf c])
        (m.map Prod.fst) := by
  induction cards generalizing m with
  | nil => rfl
  | cons c rest ih =>
    simp only [List.foldl_cons]
    rw [ih]
    congr 1
    unfold dedupStep
    rcases hl : lookupA m (keyOf c) with _ | old
    · have : keyOf c ∉ m.map Prod.fst := (lookupA_eq_none_iff m (keyOf c)).mp hl
      simp [this]
    · have : ¬ (lookupA m (keyOf c) = none) := by simp [hl]
      have hmem : keyOf c ∈ m.map Prod.fst := by
        by_contra hc
        exact this ((lookupA_eq_none_iff m (keyOf c)).mpr hc)
      by_cases hb : better c old
      · simp [hb, hmem, mapFst_replaceA]
      · simp [hb, hmem]

theorem dedupFold_keys {α : Type} (keyOf : α → String) (better : α → α → Bool)
    (cards : List α) :
    (dedupFold keyOf better cards).map Prod.fst = firstKeys keyOf cards := by
  simpa using dedupFold_keys_aux keyOf better cards []

theorem firstKeys_aux_nodup {α : Type} (keyOf : α → String) (cards : List α)
    (acc : List String) (h : acc.Nodup) :
    (cards.foldl (fun acc c => if keyOf c ∈ acc then acc else acc ++ [keyOf c]) acc).Nodup := by
  induction cards generalizing acc with
  | nil => exact h
  | cons c rest ih =>
    simp only [List.foldl_cons]
    by_cases hm : keyOf c ∈ acc
    · rw [if_pos hm]; exact ih acc h
    · rw [if_neg hm]
      refine ih (acc ++ [keyOf c]) ?_
      rw [List.nodup_append]
      exact ⟨h, List.nodup_singleton _,
        fun a ha hb => hm ((List.mem_singleton.mp hb) ▸ ha)⟩

theorem firstKeys_nodup {α : Type} (keyOf : α → String) (cards : List α) :
    (firstKeys keyOf cards).Nodup :=
  firstKeys_aux_nodup keyOf cards [] List.nodup_nil

theorem firstKeys_aux_mem {α : Type} (keyOf : α → String) (cards : List α)
    (acc : List String) (k : String) :
    k ∈ cards.foldl (fun acc c => if keyOf c ∈ acc then acc else acc ++ [keyOf c]) acc ↔
      k ∈ acc ∨ k ∈ cards.map keyOf := by
  induction cards generalizing acc with
  | nil => simp
  | cons c rest ih =>
    simp only [List.foldl_cons, List.map_cons, List.mem_cons]
    by_cases hm : keyOf c ∈ acc
    · rw [if_pos hm, ih]
      constructor
      · rintro (h | h) <;> tauto
      · rintro (h | h | h)
        · tauto
        · exact Or.inl (h ▸ hm)
        · tauto
    · rw [if_neg hm, ih]
      simp only [List.mem_append, List.mem_singleton]
      tauto

theorem firstKeys_mem {α : Type} (keyOf : α → String) (cards : List α) (k : String) :
    k ∈ firstKeys keyOf cards ↔ k ∈ cards.map keyOf := by
  simpa using firstKeys_aux_mem keyOf cards [] k

theorem dedupFold_inv_aux {α : Type} (keyOf : α → String) (better : α → α → Bool)
    (cards : List α) (m : List (String × α))
    (h : ∀ p ∈ m, keyOf p.2 = p.1) :
    ∀ p ∈ cards.foldl (dedupStep keyOf better) m, keyOf p.2 = p.1 := by
  induction cards generalizing m with
  | nil => exact h
  | cons c rest ih =>
    simp only [List.foldl_cons]
    refine ih _ ?_
    intro p hp
    unfold dedupStep at hp
    rcases hl : lookupA m (keyOf c) with _ | old
    · rw [hl] at hp
      simp only [List.mem_append, List.mem_singleton] at hp
      rcases hp with hp | hp
      · exact h p hp
      · simp [hp]
    · rw [hl] at hp
      by_cases hb : better c old
      · simp only [hb, if_true] at hp
        rcases mem_replaceA m (keyOf c) c p hp with hp2 | hp2
        · exact h p hp2
        · simp [hp2]
      · simp only [hb, if_false] at hp
        exact h p hp

theorem dedupFold_inv {α : Type} (keyOf : α → String) (better : α → α → Bool)
    (cards : List α) :
    ∀ p ∈ dedupFold keyOf better cards, keyOf p.2 = p.1 :=
  dedupFold_inv_aux keyOf better cards [] (by intro p hp; simp at hp)

theorem dedupBy_map_key {α : Type} (keyOf : α → String) (better : α → α → Bool)
    (cards : List α) :
    (dedupBy keyOf better cards).map keyOf = firstKeys keyOf cards := by
  have h1 : (dedupBy keyOf better cards).map keyOf
      = (dedupFold keyOf better cards).map Prod.fst := by
    unfold dedupBy
    rw [List.map_map]
    exact List.map_congr_left (fun p hp => dedupFold_inv keyOf better cards p hp)
  rw [h1, dedupFold_keys]

theorem dedupStep_of_fresh {α : Type} (keyOf : α → String) (better : α → α → Bool)
    (m : List (String × α)) (c : α) (hl : lookupA m (keyOf c) = none) :
    dedupStep keyOf better m c = m ++ [(keyOf c, c)] := by
  unfold dedupStep
  rw [hl]

theorem dedupStep_of_hit {α : Type} (keyOf : α → String) (better : α → α → Bool)
    (m : List (String × α)) (c old : α) (hl : lookupA m (keyOf c) = some old) :
    dedupStep keyOf better m c = if better c old then replaceA m (keyOf c) c else m := by
  unfold dedupStep
  rw [hl]

theorem dedupFold_lookup_aux {α : Type} (keyOf : α → String) (better : α → α → Bool)
    (cards : List α) (m : List (String × α)) (k : String) :
    lookupA (cards.foldl (dedupStep keyOf better) m) k =
      champOpt better (lookupA m k) (cards.filter (fun c => keyOf c = k)) := by
  induction cards generalizing m with
  | nil =>
    simp only [List.foldl_nil, List.filter_nil]
    cases lookupA m k <;> rfl
  | cons c rest ih =>
    simp only [List.foldl_cons]
    rw [ih]
    by_cases hk : keyOf c = k
    · rw [List.filter_cons_of_pos (by simpa using hk)]
      rcases hl : lookupA m (keyOf c) with _ | old
      · rw [dedupStep_of_fresh keyOf better m c hl, lookupA_append_single]
        rw [hk] at hl
        rw [hl]
        simp only [hk, if_pos rfl]
        cases hg : rest.filter (fun c => keyOf c = k) <;>
          simp [champOpt, champFold]
      · rw [dedupStep_of_hit keyOf better m c old hl]
        rw [hk] at hl
        by_cases hb : better c old
        · rw [if_pos hb, lookupA_replaceA]
          simp [hk, hl, hb, champOpt, champFold]
        · rw [if_neg hb]
          simp [hl, hb, champOpt, champFold]
    · rw [List.filter_cons_of_neg (by simpa using hk)]
      have hstep : lookupA (dedupStep keyOf better m c) k = lookupA m k := by
        rcases hl : lookupA m (keyOf c) with _ | old
        · rw [dedupStep_of_fresh keyOf better m c hl, lookupA_append_single]
          cases hmk : lookupA m k with
          | none => simp [hk]
          | some w => simp
        · rw [dedupStep_of_hit keyOf better m c old hl]
          by_cases hb : better c old
          · rw [if_pos hb, lookupA_replaceA, if_neg (fun h => hk h.symm)]
          · rw [if_neg hb]
      rw [hstep]

theorem dedupFold_lookup {α : Type} (keyOf : α → String) (better : α → α → Bool)
    (cards : List α) (k : String) :
    lookupA (dedupFold keyOf better cards) k =
      champOpt better none (cards.filter (fun c => keyOf c = k)) := by
  have := dedupFold_lookup_aux keyOf better cards [] k
  simpa [lookupA] using this

theorem dedupFold_fresh_aux {α : Type} (keyOf : α → String) (better : α → α → Bool)
    (cards : List α) (m : List (String × α))
    (h : (m.map Prod.fst ++ cards.map keyOf).Nodup) :
    cards.foldl (dedupStep keyOf better) m = m ++ cards.map (fun c => (keyOf c, c)) := by
  induction cards generalizing m with
  | nil => simp
  | cons c rest ih =>
    simp only [List.foldl_cons]
    have hdisj := (List.nodup_append.mp (by simpa using h)).2.2
    have hfresh : keyOf c ∉ m.map Prod.fst := by
      intro hmem
      exact hdisj hmem (List.mem_cons_self _ _)
    rw [dedupStep_of_fresh keyOf better m c ((lookupA_eq_none_iff m (keyOf c)).mpr hfresh)]
    have h' : ((m ++ [(keyOf c, c)]).map Prod.fst ++ rest.map keyOf).Nodup := by
      simpa using h
    rw [ih (m ++ [(keyOf c, c)]) h']
    simp

theorem dedupBy_of_nodup_keys {α : Type} (keyOf : α → String) (better : α → α → Bool)
    (cards : List α) (h : (cards.map keyOf).Nodup) :
    dedupBy keyOf better cards = cards := by
  unfold dedupBy dedupFold
  rw [dedupFold_fresh_aux keyOf better cards [] (by simpa using h)]
  simp only [List.nil_append, List.map_map]
  exact List.map_id'' (fun _ => rfl) cards

/-! ## Champion characterization: the fold keeps the first-seen best element -/

theorem champFold_mem {α : Type} (better : α → α → Bool) (c : α) (cs : List α) :
    champFold better c cs ∈ c :: cs := by
  induction cs generalizing c with
  | nil => simp [champFold]
  | cons d cs ih =>
    rw [show champFold better c (d :: cs)
        = champFold better (if better d c then d else c) cs from rfl]
    by_cases hb : better d c
    · rw [if_pos hb]
      rcases List.mem_cons.mp (ih d) with h1 | h1
      · simp [h1]
      · simp [h1]
    · rw [if_neg hb]
      rcases List.mem_cons.mp (ih c) with h1 | h1
      · simp [h1]
      · simp [List.mem_cons, h1]

theorem champFold_congr {α : Type} (b1 b2 : α → α → Bool) (c : α) (cs : List α)
    (H : ∀ x ∈ c :: cs, ∀ y ∈ c :: cs, b1 x y = b2 x y) :
    champFold b1 c cs = champFold b2 c cs := by
  induction cs generalizing c with
  | nil => rfl
  | cons d cs ih =>
    have hcd : b1 d c = b2 d c := H d (by simp) c (by simp)
    rw [show champFold b1 c (d :: cs) = champFold b1 (if b1 d c then d else c) cs from rfl,
        show champFold b2 c (d :: cs) = champFold b2 (if b2 d c then d else c) cs from rfl,
        hcd]
    have hsub : ∀ z, z ∈ (if b2 d c then d else c) :: cs → z ∈ c :: d :: cs := by
      intro z hz
      by_cases hb : b2 d c
      · rw [if_pos hb] at hz
        rcases List.mem_cons.mp hz with h1 | h1
        · simp [h1]
        · simp [List.mem_cons, h1]
      · rw [if_neg hb] at hz
        rcases List.mem_cons.mp hz with h1 | h1
        · simp [h1]
        · simp [List.mem_cons, h1]
    exact ih _ (fun x hx y hy => H x (hsub x hx) y (hsub y hy))

theorem champFold_min_spec {α : Type} (key : α → Nat) (c : α) (cs : List α) :
    (∀ x ∈ c :: cs, key (champFold (fun x ch => decide (key x < key ch)) c cs) ≤ key x)
    ∧ ∃ pre post,
        c :: cs = pre ++ (champFold (fun x ch => decide (key x < key ch)) c cs) :: post
        ∧ ∀ x ∈ pre, key (champFold (fun x ch => decide (key x < key ch)) c cs) < key x := by
  induction cs generalizing c with
  | nil =>
    refine ⟨?_, [], [], by simp [champFold], by simp⟩
    intro x hx
    rcases List.mem_singleton.mp hx with rfl
    simp [champFold]
  | cons d cs ih =>
    have hstep : champFold (fun x ch => decide (key x < key ch)) c (d :: cs)
        = champFold (fun x ch => decide (key x < key ch))
            (if key d < key c then d else c) cs := by
      show champFold _ (if decide (key d < key c) = true then d else c) cs = _
      by_cases hb : key d < key c <;> simp [hb]
    rw [hstep]
    by_cases hb : key d < key c
    · rw [if_pos hb]
      obtain ⟨ihle, pre', post', hdecomp, hpre⟩ := ih d
      refine ⟨?_, ?_⟩
      · intro x hx
        rcases List.mem_cons.mp hx with rfl | hx2
        · exact le_of_lt (lt_of_le_of_lt (ihle d (by simp)) hb)
        · exact ihle x hx2
      · refine ⟨c :: pre', post', ?_, ?_⟩
        · rw [List.cons_append, ← hdecomp]
        · intro x hx
          rcases List.mem_cons.mp hx with rfl | hx2
          · exact lt_of_le_of_lt (ihle d (by simp)) hb
          · exact hpre x hx2
    · rw [if_neg hb]
      obtain ⟨ihle, pre', post', hdecomp, hpre⟩ := ih c
      have hcd : key c ≤ key d := le_of_not_lt hb
      refine ⟨?_, ?_⟩
      · intro x hx
        rcases List.mem_cons.mp hx with rfl | hx2
        · exact ihle x (by simp)
        · rcases List.mem_cons.mp hx2 with rfl | hx3
          · exact le_trans (ihle c (by simp)) hcd
          · exact ihle x (List.mem_cons_of_mem _ hx3)
      · generalize hgen : champFold (fun x ch => decide (key x < key ch)) c cs = ch at hdecomp hpre ⊢
        rcases pre' with _ | ⟨p, rest⟩
        · simp only [List.nil_append] at hdecomp
          injection hdecomp with h1 h2
          refine ⟨[], d :: cs, ?_, by simp⟩
          rw [← h1]
          simp
        · rw [List.cons_append] at hdecomp
          injection hdecomp with h1 h2
          refine ⟨c :: d :: rest, post', ?_, ?_⟩
          · rw [h2]
            simp
          · intro x hx
            rcases List.mem_cons.mp hx with rfl | hx2
            · have h3 := hpre p (by simp)
              rw [← h1] at h3
              exact h3
            · rcases List.mem_cons.mp hx2 with rfl | hx3
              · have h3 := hpre p (by simp)
                rw [← h1] at h3
                exact lt_of_lt_of_le h3 hcd
              · exact hpre x (List.mem_cons_of_mem _ hx3)


/-! ## Claim theorems -/

/-- C1: the composite-key deduplication step of
`transformSupabaseDataToStackedCards` is deterministic (it is a pure
function) and idempotent: re-running it on its own output is a no-op. -/
theorem dedupCards_idempotent (cards : List Card) :
    dedupCards (dedupCards cards) = dedupCards cards := by
  apply dedupBy_of_nodup_keys
  show ((dedupBy cardKey betterScore cards).map cardKey).Nodup
  rw [dedupBy_map_key]
  exact firstKeys_nodup cardKey cards

/-- C3: the composite-key dedup returns exactly one card per distinct
identity key (venue id, lower-cased trimmed event name, event date, event
start time): the output's key sequence is exactly the input's distinct keys
in order of first appearance, with no duplicates, even when a later
duplicate replaces an earlier card as the chosen representative. -/
theorem dedupCards_one_per_key_in_order (cards : List Card) :
    (dedupCards cards).map cardKey = firstKeys cardKey cards
    ∧ ((dedupCards cards).map cardKey).Nodup
    ∧ ∀ k, k ∈ (dedupCards cards).map cardKey ↔ k ∈ cards.map cardKey := by
  refine ⟨dedupBy_map_key cardKey betterScore cards, ?_, ?_⟩
  · rw [show dedupCards cards = dedupBy cardKey betterScore cards from rfl,
      dedupBy_map_key]
    exact firstKeys_nodup cardKey cards
  · intro k
    rw [show dedupCards cards = dedupBy cardKey betterScore cards from rfl,
      dedupBy_map_key]
    exact firstKeys_mem cardKey cards k

/-- C2: in composite-key dedup mode, of two cards sharing the identity key
the one with the higher data-completeness score is retained; on equal
scores the first-seen card is kept; in particular a card differing from its
duplicate only by carrying an artist is retained. -/
theorem dedup_completeness_tiebreak (cards : List Card) (k : String) (c1 c2 : Card)
    (h : cards.filter (fun c => cardKey c = k) = [c1, c2]) :
    (calculateDataCompleteness c2 > calculateDataCompleteness c1 →
      lookupA (dedupFold cardKey betterScore cards) k = some c2)
    ∧ (calculateDataCompleteness c2 ≤ calculateDataCompleteness c1 →
      lookupA (dedupFold cardKey betterScore cards) k = some c1)
    ∧ (∀ a : String, a ≠ "" → truthyS c1.event.artist = false →
        c2.event = { c1.event with artist := some a } → c2.venue = c1.venue →
        lookupA (dedupFold cardKey betterScore cards) k = some c2) := by
  have main : lookupA (dedupFold cardKey betterScore cards) k
      = some (if betterScore c2 c1 then c2 else c1) := by
    have hlook := dedupFold_lookup cardKey betterScore cards k
    rw [h] at hlook
    exact hlook
  have hgt_case : calculateDataCompleteness c2 > calculateDataCompleteness c1 →
      lookupA (dedupFold cardKey betterScore cards) k = some c2 := by
    intro hgt
    have hb : betterScore c2 c1 = true := by
      simpa [betterScore] using hgt
    rw [main, hb]
    simp
  refine ⟨hgt_case, ?_, ?_⟩
  · intro hle
    have hb : betterScore c2 c1 = false := by
      simp [betterScore]
      omega
    rw [main, hb]
    simp
  · intro a ha hart hev hven
    apply hgt_case
    have h2 : truthyS (some a) = true := by simp [truthyS, ha]
    unfold calculateDataCompleteness
    rw [hev, hven]
    simp [hart, h2]

/-- Witness for C2: of two concrete duplicate records, the dedup retains
the card carrying the artist. -/
theorem dedup_completeness_tiebreak_witness :
    lookupA (dedupFold cardKey betterScore [sampleCardA, sampleCardB])
      (cardKey sampleCardA) = some sampleCardB :=
  (dedup_completeness_tiebreak [sampleCardA, sampleCardB] (cardKey sampleCardA)
    sampleCardA sampleCardB (by decide)).1 (by decide)

/-- C4: title selection returns the first valid candidate among event name,
artist, venue name in that priority order (a candidate is valid iff its
trimmed length is at least 4, it does not end in `"..."`, and at least half
its characters are letters), falling back to `"Event"`; in particular
`("", "DJ", "Club Alpha")` yields `"Club Alpha"`. -/
theorem selectBestTitle_spec :
    (∀ e a v : Option String, isValidTitle e = true →
        selectBestTitle e a v = jsTrim (e.getD ""))
    ∧ (∀ e a v : Option String, isValidTitle e = false → isValidTitle a = true →
        selectBestTitle e a v = jsTrim (a.getD ""))
    ∧ (∀ e a v : Option String, isValidTitle e = false → isValidTitle a = false →
        isValidTitle v = true → selectBestTitle e a v = jsTrim (v.getD ""))
    ∧ (∀ e a v : Option String, isValidTitle e = false → isValidTitle a = false →
        isValidTitle v = false → selectBestTitle e a v = "Event")
    ∧ (∀ s : String, isValidTitle (some s)
        = (decide (4 ≤ (jsTrim s).length)
            && !(jsEndsWith (jsTrim s) "...")
            && decide ((jsTrim s).length ≤ 2 * countAlpha (jsTrim s))))
    ∧ selectBestTitle (some "") (some "DJ") (some "Club Alpha") = "Club Alpha" := by
  refine ⟨?_, ?_, ?_, ?_, ?_, by decide⟩
  · intro e a v he
    simp [selectBestTitle, he]
  · intro e a v he ha
    simp [selectBestTitle, he, ha]
  · intro e a v he ha hv
    simp [selectBestTitle, he, ha, hv]
  · intro e a v he ha hv
    simp [selectBestTitle, he, ha, hv]
  · intro s
    by_cases hs : s = ""
    · subst hs; decide
    · have hred : isValidTitle (some s) =
          (if s = "" then false
           else if (jsTrim s).length < 4 then false
           else if jsEndsWith (jsTrim s) "..." then false
           else decide ((jsTrim s).length ≤ 2 * countAlpha (jsTrim s))) := rfl
      rw [hred, if_neg hs]
      by_cases h4 : (jsTrim s).length < 4
      · rw [if_pos h4]
        have h4' : ¬ (4 ≤ (jsTrim s).length) := by omega
        simp [h4']
      · rw [if_neg h4]
        have h4' : 4 ≤ (jsTrim s).length := by omega
        by_cases he : jsEndsWith (jsTrim s) "..."
        · rw [if_pos he]
          simp [he, h4']
        · rw [if_neg he]
          simp [he, h4']

/-- Witness for C4: with an invalid event name and a too-short artist, the
venue name is selected. -/
theorem selectBestTitle_spec_witness :
    selectBestTitle (some "ab") (some "The Warehouse") (some "X") = jsTrim "The Warehouse" :=
  selectBestTitle_spec.2.1 (some "ab") (some "The Warehouse") (some "X")
    (by decide) (by decide)

/-- C5: `parseEventTime` is total for string, null and undefined input (the
model returns a value for every `Option String` by construction, as the JS
function never throws): absent input yields empty strings; an input whose
trimmed form contains one `" - "` separator yields the trimmed substrings
before and after it; a single `H:MM AM/PM` match yields it as start with
empty end; anything else yields empty strings. -/
theorem parseEventTime_total_spec :
    (parseEventTime none = ("", ""))
    ∧ (∀ s before after,
        breakFirst (" - ".toList) (jsTrim s).toList = some (before, after) →
        breakFirst (" - ".toList) after = none →
        parseEventTime (some s) = (jsTrim (String.mk before), jsTrim (String.mk after)))
    ∧ (∀ s, breakFirst (" - ".toList) (jsTrim s).toList = none →
        singleTimeL (jsTrim s).toList = true →
        parseEventTime (some s) = (jsTrim s, ""))
    ∧ (∀ s, breakFirst (" - ".toList) (jsTrim s).toList = none →
        singleTimeL (jsTrim s).toList = false →
        parseEventTime (some s) = ("", "")) := by
  refine ⟨rfl, ?_, ?_, ?_⟩
  · intro s before after h1 h2
    simp at h1 h2
    simp [parseEventTime, h1, h2]
  · intro s h1 h2
    simp at h1 h2
    simp [parseEventTime, h1, h2]
  · intro s h1 h2
    simp at h1 h2
    simp [parseEventTime, h1, h2]

/-- Witness for C5: a concrete time range splits into trimmed start and end. -/
theorem parseEventTime_total_spec_witness :
    parseEventTime (some "8:00 PM - 2:00 AM")
      = (jsTrim (String.mk "8:00 PM".toList), jsTrim (String.mk "2:00 AM".toList)) :=
  parseEventTime_total_spec.2.1 "8:00 PM - 2:00 AM" "8:00 PM".toList "2:00 AM".toList
    (by decide) (by decide)

/-- `mapWithIdx` preserves length: no record is dropped by the card
transformation. -/
theorem mapWithIdx_length {α β : Type} (f : Nat → α → β) (i : Nat) (l : List α) :
    (mapWithIdx f i l).length = l.length := by
  induction l generalizing i with
  | nil => rfl
  | cons x xs ih => simp [mapWithIdx, ih]

theorem transformStep1_length (t : String) (venues : List SupabaseVenueEvent) :
    (transformStep1 t venues).length = venues.length :=
  mapWithIdx_length _ _ _

theorem mapWithIdx_get {α β : Type} (f : Nat → α → β) (i : Nat) (l : List α)
    (j : Nat) (hj : j < l.length) :
    (mapWithIdx f i l).get ⟨j, by rw [mapWithIdx_length]; exact hj⟩
      = f (i + j) (l.get ⟨j, hj⟩) := by
  induction l generalizing i j with
  | nil => exact absurd hj (by simp)
  | cons x xs ih =>
    cases j with
    | zero => simp [mapWithIdx]
    | succ j2 =>
      have hj2 : j2 < xs.length := by simpa using hj
      have h3 := ih (i + 1) j2 hj2
      show (mapWithIdx f (i + 1) xs).get ⟨j2, _⟩ = f (i + (j2 + 1)) (xs.get ⟨j2, hj2⟩)
      rw [show i + (j2 + 1) = i + 1 + j2 by omega]
      exact h3

/-- C10: a raw record whose `event_date` is absent is not dropped by
`transformSupabaseDataToStackedCards`: step 1 keeps one card per record, and
the produced card's event date is the current day's ISO date string, so it
participates in dedup and date filtering under today's date. -/
theorem transform_absent_date_defaults_today (t : String)
    (venues : List SupabaseVenueEvent) :
    (transformStep1 t venues).length = venues.length
    ∧ ∀ (j : Nat) (hj : j < venues.length),
        (venues.get ⟨j, hj⟩).event_date = none →
        ((transformStep1 t venues).get
          ⟨j, by rw [transformStep1_length]; exact hj⟩).event.event_date = t := by
  refine ⟨transformStep1_length t venues, ?_⟩
  intro j hj hd
  have h := mapWithIdx_get (toCard t) 0 venues j hj
  rw [show ((transformStep1 t venues).get ⟨j, by rw [transformStep1_length]; exact hj⟩)
      = ((mapWithIdx (toCard t) 0 venues).get ⟨j, by rw [mapWithIdx_length]; exact hj⟩)
      from rfl, h]
  simp only [List.get_eq_getElem] at hd
  simp [toCard, hd, truthyS]

/-- Witness for C10: a concrete record without `event_date` yields a card
dated with the supplied current day. -/
theorem transform_absent_date_defaults_today_witness :
    ((transformStep1 "2025-06-05"
        [({ event_name := some "Party Night", venue_id := some 2 } : SupabaseVenueEvent)]).get
      ⟨0, by decide⟩).event.event_date = "2025-06-05" :=
  (transform_absent_date_defaults_today "2025-06-05"
    [({ event_name := some "Party Night", venue_id := some 2 } : SupabaseVenueEvent)]).2
    0 (by decide) (by decide)

/-- C7: for the date facet, an empty selected date-key set passes every
record (both the card date post-filter and the venue-level display filter
are the identity), and with a non-empty selection a record survives the
date facet only if its own date key is selected. -/
theorem dateFacet_spec (dm : DateModel) (vdm : List (String × List DateOption))
    (activeDates : List String) (cards : List Card) :
    (postFilterByDates dm [] cards = cards)
    ∧ (displayCardsFilter vdm [] cards = cards)
    ∧ (∀ c : Card, c ∈ postFilterByDates dm activeDates cards ↔
        (c ∈ cards ∧ (activeDates = [] ∨ cardDateKey dm c ∈ activeDates)))
    ∧ (∀ c : Card, activeDates ≠ [] →
        c ∈ displayCardsFilter vdm activeDates (postFilterByDates dm activeDates cards) →
        cardDateKey dm c ∈ activeDates) := by
  refine ⟨by simp [postFilterByDates], by simp [displayCardsFilter], ?_, ?_⟩
  · intro c
    cases activeDates with
    | nil => simp [postFilterByDates]
    | cons a as =>
      simp [postFilterByDates, List.mem_filter]
  · intro c hne hmem
    cases activeDates with
    | nil => exact absurd rfl hne
    | cons a as =>
      have h2 : c ∈ postFilterByDates dm (a :: as) cards := by
        simp only [displayCardsFilter, List.isEmpty_cons, Bool.false_eq_true,
          if_false] at hmem
        exact (List.mem_filter.mp hmem).1
      simp [postFilterByDates, List.mem_filter] at h2
      exact List.mem_cons.mpr h2.2

/-- Witness for C7: with one active date, a card carrying that date key
survives the composed date facet and its own key is selected. -/
theorem dateFacet_spec_witness :
    sampleCardA ∈ postFilterByDates sampleDM ["day100"] [sampleCardA]
    ∧ cardDateKey sampleDM sampleCardA ∈ ["day100"] :=
  ⟨((dateFacet_spec sampleDM [] ["day100"] [sampleCardA]).2.2.1 sampleCardA).mpr
      ⟨by decide, Or.inr (by decide)⟩,
    by decide⟩

/-- C8: in the loose dedup mode keyed by venue id and lower-cased event
name, among cards sharing a key (all with parseable dates) the retained
card is one of the group, has minimal absolute time distance to today, and
is the first of the group attaining that distance (earlier cards are
strictly farther). -/
theorem looseDedup_closest_to_today (dm : DateModel) (todayTime : Int)
    (cards : List Card) (k : String) (c : Card) (cs : List Card)
    (hg : cards.filter (fun x => looseKey x = k) = c :: cs)
    (hall : ∀ x ∈ c :: cs, (distToToday dm todayTime x).isSome) :
    ∃ d, lookupA (dedupFold looseKey (betterCloser dm todayTime) cards) k = some d
      ∧ d ∈ dedupByVenueName dm todayTime cards
      ∧ d ∈ c :: cs
      ∧ (∀ x ∈ c :: cs,
          (distToToday dm todayTime d).getD 0 ≤ (distToToday dm todayTime x).getD 0)
      ∧ ∃ pre post, c :: cs = pre ++ d :: post
          ∧ ∀ x ∈ pre,
            (distToToday dm todayTime d).getD 0 < (distToToday dm todayTime x).getD 0 := by
  have hlook := dedupFold_lookup looseKey (betterCloser dm todayTime) cards k
  rw [hg] at hlook
  set keyF : Card → Nat := fun x => (distToToday dm todayTime x).getD 0 with hkeyF
  have hcongr : champFold (betterCloser dm todayTime) c cs
      = champFold (fun x ch => decide (keyF x < keyF ch)) c cs := by
    apply champFold_congr
    intro x hx y hy
    rcases Option.isSome_iff_exists.mp (hall x hx) with ⟨nx, hnx⟩
    rcases Option.isSome_iff_exists.mp (hall y hy) with ⟨ny, hny⟩
    simp [betterCloser, hnx, hny, hkeyF]
  obtain ⟨hle, pre, post, hdec, hpre⟩ := champFold_min_spec keyF c cs
  rw [← hcongr] at hle hdec hpre
  refine ⟨champFold (betterCloser dm todayTime) c cs, hlook, ?_,
    champFold_mem _ c cs, hle, pre, post, hdec, hpre⟩
  have hm := lookupA_mem _ _ _ hlook
  exact List.mem_map_of_mem Prod.snd hm

/-- Witness for C8: of two concrete cards for the same venue and event name
on different dates, the dedup keeps one of them with minimal distance to
today. -/
theorem looseDedup_closest_to_today_witness :
    ∃ d, lookupA (dedupFold looseKey (betterCloser sampleDM 210)
        [sampleCardA, toCard "2025-06-05" 1
          { sampleRecA with event_date := some "2025-06-02" }])
      (looseKey sampleCardA) = some d
      ∧ d ∈ dedupByVenueName sampleDM 210
          [sampleCardA, toCard "2025-06-05" 1
            { sampleRecA with event_date := some "2025-06-02" }]
      ∧ d ∈ sampleCardA :: [toCard "2025-06-05" 1
            { sampleRecA with event_date := some "2025-06-02" }]
      ∧ (∀ x ∈ sampleCardA :: [toCard "2025-06-05" 1
            { sampleRecA with event_date := some "2025-06-02" }],
          (distToToday sampleDM 210 d).getD 0 ≤ (distToToday sampleDM 210 x).getD 0)
      ∧ ∃ pre post, sampleCardA :: [toCard "2025-06-05" 1
            { sampleRecA with event_date := some "2025-06-02" }] = pre ++ d :: post
          ∧ ∀ x ∈ pre,
            (distToToday sampleDM 210 d).getD 0 < (distToToday sampleDM 210 x).getD 0 :=
  looseDedup_closest_to_today sampleDM 210
    [sampleCardA, toCard "2025-06-05" 1 { sampleRecA with event_date := some "2025-06-02" }]
    (looseKey sampleCardA) sampleCardA
    [toCard "2025-06-05" 1 { sampleRecA with event_date := some "2025-06-02" }]
    (by decide) (by decide)

/-- C9 counterexample: the claim says the smart subtitle returns a
non-redundant subtitle unchanged, but on an empty event name the code
returns the empty string for a subtitle that is not redundant in the
claim's sense (the normalized subtitle does not even contain the
normalized venue name). -/
theorem generateSmartSubtitle_counterexample :
    generateSmartSubtitle "" "Club Alpha" "An entirely different tagline" = ""
    ∧ "An entirely different tagline" ≠ ""
    ∧ ¬ (containsL (normalizeStr "Club Alpha").toList
          (normalizeStr "An entirely different tagline").toList = true
        ∧ containsL (normalizeStr "").toList
          (normalizeStr "An entirely different tagline").toList = true
        ∧ (normalizeStr "An entirely different tagline").toList.length
            < (normalizeStr "Club Alpha").toList.length
              + (normalizeStr "").toList.length + 10) := by
  decide

/-- C9 amended: when the event name and venue name are non-empty and the
subtitle has non-whitespace content, the smart subtitle suppresses the
subtitle exactly when it is redundant (its normalized form contains both
normalized names and is shorter than their combined length plus 10) and
returns it unchanged otherwise; when the subtitle, event name or venue name
is empty, or the subtitle is only whitespace, it returns the empty string. -/
theorem generateSmartSubtitle_spec :
    (∀ e v s : String, e ≠ "" → v ≠ "" → jsTrim s ≠ "" →
      generateSmartSubtitle e v s =
        (if containsL (normalizeStr v).toList (normalizeStr s).toList
            && containsL (normalizeStr e).toList (normalizeStr s).toList
            && decide ((normalizeStr s).toList.length
                < (normalizeStr v).toList.length + (normalizeStr e).toList.length + 10)
         then "" else s))
    ∧ (∀ e v s : String, e = "" ∨ v = "" ∨ jsTrim s = "" →
        generateSmartSubtitle e v s = "") := by
  constructor
  · intro e v s he hv hst
    have hs : s ≠ "" := by
      intro h
      rw [h] at hst
      exact hst rfl
    have hg1 : ¬ (s = "" ∨ e = "" ∨ v = "") := by simp [hs, he, hv]
    unfold generateSmartSubtitle
    rw [if_neg hg1, if_neg hst]
  · intro e v s h
    by_cases hg : s = "" ∨ e = "" ∨ v = ""
    · simp [generateSmartSubtitle, hg]
    · rcases h with h | h | h
      · exact absurd (Or.inr (Or.inl h)) hg
      · exact absurd (Or.inr (Or.inr h)) hg
      · unfold generateSmartSubtitle
        rw [if_neg hg, if_pos h]

/-- Witness for C9 amended: a concrete redundant subtitle is suppressed. -/
theorem generateSmartSubtitle_spec_witness :
    generateSmartSubtitle "Glow" "Club" "Glow @ Club!" = "" :=
  (generateSmartSubtitle_spec.1 "Glow" "Club" "Glow @ Club!"
    (by decide) (by decide) (by decide)).trans (by decide)

/-! ## Lemmas for the date index -/

theorem lookupA_map_val {α β : Type} (f : α → β) (m : List (String × α)) (k : String) :
    lookupA (m.map (fun p => (p.1, f p.2))) k = (lookupA m k).map f := by
  induction m with
  | nil => rfl
  | cons p rest ih =>
    obtain ⟨pk, pv⟩ := p
    by_cases h : pk = k <;> simp [lookupA, h, ih]

theorem vdmStep_none (dm : DateModel) (m : List (String × List DateOption))
    (v : SupabaseVenueEvent) (hc : contribOpt dm v = none) : vdmStep dm m v = m := by
  unfold vdmStep
  rw [hc]

theorem vdmStep_fresh (dm : DateModel) (m : List (String × List DateOption))
    (v : SupabaseVenueEvent) (k : String) (o : DateOption)
    (hc : contribOpt dm v = some (k, o)) (hl : lookupA m k = none) :
    vdmStep dm m v = m ++ [(k, [o])] := by
  unfold vdmStep
  rw [hc]
  dsimp only
  rw [hl]

theorem vdmStep_dup (dm : DateModel) (m : List (String × List DateOption))
    (v : SupabaseVenueEvent) (k : String) (o : DateOption) (l : List DateOption)
    (hc : contribOpt dm v = some (k, o)) (hl : lookupA m k = some l)
    (ha : l.any (fun e => e.dateKey = o.dateKey) = true) :
    vdmStep dm m v = m := by
  unfold vdmStep
  rw [hc]
  dsimp only
  rw [hl]
  simp [ha]

theorem vdmStep_push (dm : DateModel) (m : List (String × List DateOption))
    (v : SupabaseVenueEvent) (k : String) (o : DateOption) (l : List DateOption)
    (hc : contribOpt dm v = some (k, o)) (hl : lookupA m k = some l)
    (ha : l.any (fun e => e.dateKey = o.dateKey) = false) :
    vdmStep dm m v = replaceA m k (l ++ [o]) := by
  unfold vdmStep
  rw [hc]
  dsimp only
  rw [hl]
  simp [ha]

theorem firstFor_append_of_some (dm : DateModel)
    (processed : List SupabaseVenueEvent) (v : SupabaseVenueEvent)
    (k dk : String) (e : DateOption)
    (h : firstFor dm processed k dk = some e) :
    firstFor dm (processed ++ [v]) k dk = some e := by
  unfold firstFor at h ⊢
  rw [List.filterMap_append, List.find?_append]
  rcases ho : (List.filterMap (contribOpt dm) processed).find?
      (fun p => decide (p.1 = k ∧ p.2.dateKey = dk)) with _ | pr
  · rw [ho] at h
    simp at h
  · rw [ho] at h
    rw [ho]
    exact h

theorem find?_contrib_none (dm : DateModel) (processed : List SupabaseVenueEvent)
    (k dk : String)
    (h : ∀ v' ∈ processed, ∀ o', contribOpt dm v' = some (k, o') →
      ¬ o'.dateKey = dk) :
    (List.filterMap (contribOpt dm) processed).find?
      (fun p => decide (p.1 = k ∧ p.2.dateKey = dk)) = none := by
  rw [List.find?_eq_none]
  intro p hp
  rcases List.mem_filterMap.mp hp with ⟨v', hv', hcv⟩
  simp only [decide_eq_true_eq, not_and]
  intro hk
  obtain ⟨pk, po⟩ := p
  subst hk
  exact h v' hv' po hcv

theorem firstFor_last (dm : DateModel) (processed : List SupabaseVenueEvent)
    (v : SupabaseVenueEvent) (k : String) (o : DateOption)
    (hc : contribOpt dm v = some (k, o))
    (hnone : (List.filterMap (contribOpt dm) processed).find?
      (fun p => decide (p.1 = k ∧ p.2.dateKey = o.dateKey)) = none) :
    firstFor dm (processed ++ [v]) k o.dateKey = some o := by
  unfold firstFor
  rw [List.filterMap_append, List.find?_append, hnone]
  simp [hc]

/-- Invariant of the `venueDateMap` accumulation: keys are distinct, every
entry is a non-empty list with pairwise-distinct date keys whose elements
carry the formatting of the first record that contributed them, and every
entry's key was contributed by some processed record. -/
theorem vdmFold_inv (dm : DateModel) (venues : List SupabaseVenueEvent) :
    ∀ (processed : List SupabaseVenueEvent) (m : List (String × List DateOption)),
    ((m.map Prod.fst).Nodup) →
    (∀ p ∈ m, p.2 ≠ []) →
    (∀ p ∈ m, (p.2.map DateOption.dateKey).Nodup) →
    (∀ p ∈ m, ∀ e ∈ p.2, firstFor dm processed p.1 e.dateKey = some e) →
    (∀ v' ∈ processed, ∀ k o, contribOpt dm v' = some (k, o) →
      ∃ l, lookupA m k = some l ∧ o.dateKey ∈ l.map DateOption.dateKey) →
    (∀ p ∈ m, ∃ v' ∈ processed, contribKey dm v' = some p.1) →
    (((venues.foldl (vdmStep dm) m).map Prod.fst).Nodup)
    ∧ (∀ p ∈ venues.foldl (vdmStep dm) m, p.2 ≠ [])
    ∧ (∀ p ∈ venues.foldl (vdmStep dm) m, (p.2.map DateOption.dateKey).Nodup)
    ∧ (∀ p ∈ venues.foldl (vdmStep dm) m, ∀ e ∈ p.2,
        firstFor dm (processed ++ venues) p.1 e.dateKey = some e)
    ∧ (∀ p ∈ venues.foldl (vdmStep dm) m, ∃ v' ∈ processed ++ venues,
        contribKey dm v' = some p.1) := by
  induction venues with
  | nil =>
    intro processed m h1 h2 h3 h4 h5 h6
    simp only [List.foldl_nil, List.append_nil]
    exact ⟨h1, h2, h3, h4, h6⟩
  | cons v rest ih =>
    intro processed m h1 h2 h3 h4 h5 h6
    simp only [List.foldl_cons]
    have hassoc : processed ++ v :: rest = (processed ++ [v]) ++ rest := by simp
    rw [hassoc]
    rcases hc : contribOpt dm v with _ | ⟨k, o⟩
    · rw [vdmStep_none dm m v hc]
      apply ih (processed ++ [v]) m h1 h2 h3
      · intro p hp e he
        exact firstFor_append_of_some dm processed v _ _ _ (h4 p hp e he)
      · intro v' hv' k o hco
        rcases List.mem_append.mp hv' with hv2 | hv2
        · exact h5 v' hv2 k o hco
        · rcases List.mem_singleton.mp hv2 with rfl
          rw [hc] at hco
          exact absurd hco (by simp)
      · intro p hp
        obtain ⟨v', hv', hck⟩ := h6 p hp
        exact ⟨v', List.mem_append_left _ hv', hck⟩
    · rcases hl : lookupA m k with _ | l
      · rw [vdmStep_fresh dm m v k o hc hl]
        have hfreshKey : k ∉ m.map Prod.fst := (lookupA_eq_none_iff m k).mp hl
        have hnomatch : ∀ dk, (List.filterMap (contribOpt dm) processed).find?
            (fun p => decide (p.1 = k ∧ p.2.dateKey = dk)) = none := by
          intro dk
          apply find?_contrib_none
          intro v' hv' o' hco' hdk
          obtain ⟨l0, hl0, _⟩ := h5 v' hv' k o' hco'
          rw [hl] at hl0
          exact absurd hl0 (by simp)
        apply ih (processed ++ [v]) (m ++ [(k, [o])])
        · rw [List.map_append, List.nodup_append]
          refine ⟨h1, by simp, ?_⟩
          intro x hx hx2
          simp at hx2
          exact hfreshKey (hx2 ▸ hx)
        · intro p hp
          rcases List.mem_append.mp hp with hp2 | hp2
          · exact h2 p hp2
          · rcases List.mem_singleton.mp hp2 with rfl
            simp
        · intro p hp
          rcases List.mem_append.mp hp with hp2 | hp2
          · exact h3 p hp2
          · rcases List.mem_singleton.mp hp2 with rfl
            simp
        · intro p hp e he
          rcases List.mem_append.mp hp with hp2 | hp2
          · exact firstFor_append_of_some dm processed v _ _ _ (h4 p hp2 e he)
          · rcases List.mem_singleton.mp hp2 with rfl
            rcases List.mem_singleton.mp he with rfl
            exact firstFor_last dm processed v k e hc (hnomatch e.dateKey)
        · intro v' hv' k' o' hco'
          rcases List.mem_append.mp hv' with hv2 | hv2
          · obtain ⟨l0, hl0, hdk⟩ := h5 v' hv2 k' o' hco'
            refine ⟨l0, ?_, hdk⟩
            rw [lookupA_append_single, hl0]
          · rcases List.mem_singleton.mp hv2 with rfl
            rw [hc] at hco'
            simp only [Option.some.injEq, Prod.mk.injEq] at hco'
            obtain ⟨rfl, rfl⟩ := hco'
            refine ⟨[o], ?_, by simp⟩
            rw [lookupA_append_single, hl]
            simp
        · intro p hp
          rcases List.mem_append.mp hp with hp2 | hp2
          · obtain ⟨v', hv', hck⟩ := h6 p hp2
            exact ⟨v', List.mem_append_left _ hv', hck⟩
          · rcases List.mem_singleton.mp hp2 with rfl
            exact ⟨v, List.mem_append_right _ (by simp), by simp [contribKey, hc]⟩
      · have hmem_kl : (k, l) ∈ m := lookupA_mem m k l hl
        by_cases hany : l.any (fun e => e.dateKey = o.dateKey) = true
        · rw [vdmStep_dup dm m v k o l hc hl hany]
          apply ih (processed ++ [v]) m h1 h2 h3
          · intro p hp e he
            exact firstFor_append_of_some dm processed v _ _ _ (h4 p hp e he)
          · intro v' hv' k' o' hco'
            rcases List.mem_append.mp hv' with hv2 | hv2
            · exact h5 v' hv2 k' o' hco'
            · rcases List.mem_singleton.mp hv2 with rfl
              rw [hc] at hco'
              simp only [Option.some.injEq, Prod.mk.injEq] at hco'
              obtain ⟨rfl, rfl⟩ := hco'
              refine ⟨l, hl, ?_⟩
              rcases List.any_eq_true.mp hany with ⟨e, hel, hedk⟩
              simp only [decide_eq_true_eq] at hedk
              exact hedk ▸ List.mem_map_of_mem DateOption.dateKey hel
          · intro p hp
            obtain ⟨v', hv', hck⟩ := h6 p hp
            exact ⟨v', List.mem_append_left _ hv', hck⟩
        · have hany' : l.any (fun e => e.dateKey = o.dateKey) = false := by
            simpa using hany
          rw [vdmStep_push dm m v k o l hc hl hany']
          have hnotin : o.dateKey ∉ l.map DateOption.dateKey := by
            intro hin
            rcases List.mem_map.mp hin with ⟨e, hel, hedk⟩
            exact hany (List.any_eq_true.mpr ⟨e, hel, by simp [hedk]⟩)
          have hnomatch : (List.filterMap (contribOpt dm) processed).find?
              (fun p => decide (p.1 = k ∧ p.2.dateKey = o.dateKey)) = none := by
            apply find?_contrib_none
            intro v' hv' o' hco' hdk
            obtain ⟨l0, hl0, hdk0⟩ := h5 v' hv' k o' hco'
            rw [hl] at hl0
            injection hl0 with hleq
            exact hnotin (hdk ▸ (hleq ▸ hdk0))
          apply ih (processed ++ [v]) (replaceA m k (l ++ [o]))
          · rw [mapFst_replaceA]
            exact h1
          · intro p hp
            rcases mem_replaceA m k _ p hp with hp2 | hp2
            · exact h2 p hp2
            · rw [hp2]
              simp
          · intro p hp
            rcases mem_replaceA m k _ p hp with hp2 | hp2
            · exact h3 p hp2
            · rw [hp2]
              show ((l ++ [o]).map DateOption.dateKey).Nodup
              rw [List.map_append, List.nodup_append]
              refine ⟨h3 (k, l) hmem_kl, by simp, ?_⟩
              intro x hx hx2
              simp at hx2
              exact hnotin (hx2 ▸ hx)
          · intro p hp e he
            rcases mem_replaceA m k _ p hp with hp2 | hp2
            · exact firstFor_append_of_some dm processed v _ _ _ (h4 p hp2 e he)
            · rw [hp2] at he ⊢
              rcases List.mem_append.mp he with he2 | he2
              · exact firstFor_append_of_some dm processed v _ _ _
                  (h4 (k, l) hmem_kl e he2)
              · rcases List.mem_singleton.mp he2 with rfl
                exact firstFor_last dm processed v k e hc hnomatch
          · intro v' hv' k' o' hco'
            rcases List.mem_append.mp hv' with hv2 | hv2
            · obtain ⟨l0, hl0, hdk0⟩ := h5 v' hv2 k' o' hco'
              by_cases hkk : k' = k
              · subst hkk
                rw [hl] at hl0
                injection hl0 with hleq
                refine ⟨l ++ [o], ?_, ?_⟩
                · rw [lookupA_replaceA]
                  simp [hl]
                · rw [List.map_append]
                  exact List.mem_append_left _ (hleq ▸ hdk0)
              · refine ⟨l0, ?_, hdk0⟩
                rw [lookupA_replaceA, if_neg hkk]
                exact hl0
            · rcases List.mem_singleton.mp hv2 with rfl
              rw [hc] at hco'
              simp only [Option.some.injEq, Prod.mk.injEq] at hco'
              obtain ⟨rfl, rfl⟩ := hco'
              refine ⟨l ++ [o], ?_, by simp⟩
              rw [lookupA_replaceA]
              simp [hl]
          · intro p hp
            rcases mem_replaceA m k _ p hp with hp2 | hp2
            · obtain ⟨v', hv', hck⟩ := h6 p hp2
              exact ⟨v', List.mem_append_left _ hv', hck⟩
            · rw [hp2]
              exact ⟨v, List.mem_append_right _ (by simp), by simp [contribKey, hc]⟩

/-- C6: `venueDateMap` maps each venue id to a de-duplicated sequence of
`DateOption` sorted ascending by calendar date, in which each date key
appears at most once and keeps the first contributing record's day/label
formatting; records lacking a truthy venue id or event date, or whose date
fails to parse, are skipped without error; a venue with zero parseable
event dates is absent from the map. -/
theorem venueDateMap_spec (dm : DateModel) (venues : List SupabaseVenueEvent) :
    (∀ k l, lookupA (venueDateMap dm venues) k = some l →
      l ≠ []
      ∧ (l.map DateOption.dateKey).Nodup
      ∧ l.Sorted (fun a b => dm.keyTime a.dateKey ≤ dm.keyTime b.dateKey)
      ∧ ∀ e ∈ l, firstFor dm venues k e.dateKey = some e)
    ∧ (∀ (m : List (String × List DateOption)) (v : SupabaseVenueEvent),
        (v.venue_id = none ∨ v.venue_id = some 0 ∨ v.event_date = none ∨
          v.event_date = some "" ∨
          (∀ s, v.event_date = some s → dm.parseMs s = none)) →
        vdmStep dm m v = m)
    ∧ (∀ k, (∀ v ∈ venues, ¬ contribKey dm v = some k) →
        lookupA (venueDateMap dm venues) k = none) := by
  obtain ⟨i1, i2, i3, i4, i5⟩ := vdmFold_inv dm venues [] []
    (by simp) (by simp) (by simp) (by simp) (by simp) (by simp)
  simp only [List.nil_append] at i4 i5
  refine ⟨?_, ?_, ?_⟩
  · intro k l hlook
    unfold venueDateMap at hlook
    rw [lookupA_map_val] at hlook
    rcases hraw : lookupA (venues.foldl (vdmStep dm) []) k with _ | l0
    · rw [hraw] at hlook
      simp at hlook
    · rw [hraw] at hlook
      have hls : l = sortDates dm l0 := by
        simpa using hlook.symm
      have hp := lookupA_mem _ _ _ hraw
      have hperm : List.Perm (sortDates dm l0) l0 := List.perm_insertionSort _ l0
      have hne0 : l0 ≠ [] := i2 (k, l0) hp
      refine ⟨?_, ?_, ?_, ?_⟩
      · rw [hls]
        intro h0
        apply hne0
        have := hperm.length_eq
        rw [h0] at this
        exact List.length_eq_zero.mp this.symm
      · rw [hls]
        exact (List.Perm.nodup_iff (hperm.map DateOption.dateKey)).mpr
          (i3 (k, l0) hp)
      · rw [hls]
        haveI : IsTotal DateOption
            (fun a b => dm.keyTime a.dateKey ≤ dm.keyTime b.dateKey) :=
          ⟨fun a b => le_total _ _⟩
        haveI : IsTrans DateOption
            (fun a b => dm.keyTime a.dateKey ≤ dm.keyTime b.dateKey) :=
          ⟨fun a b c hab hbc => le_trans hab hbc⟩
        exact List.sorted_insertionSort _ l0
      · intro e he
        rw [hls] at he
        exact i4 (k, l0) hp e (hperm.mem_iff.mp he)
  · intro m v hv
    apply vdmStep_none
    unfold contribOpt
    rcases hv with h | h | h | h | h
    · cases hd : v.event_date <;> simp [h, hd]
    · cases hd : v.event_date with
      | none => simp [hd]
      | some ds => simp [h, hd]
    · simp [h]
    · cases hvid : v.venue_id with
      | none => simp [h, hvid]
      | some vid => simp [h, hvid]
    · cases hd : v.event_date with
      | none => simp [hd]
      | some ds =>
        cases hvid : v.venue_id with
        | none => simp [hd, hvid]
        | some vid =>
          have hp := h ds hd
          by_cases hguard : ds = "" ∨ vid = 0
          · simp [hd, hvid, hguard]
          · simp [hd, hvid, hguard, hp]
  · intro k hnone
    unfold venueDateMap
    rw [lookupA_map_val]
    rcases hraw : lookupA (venues.foldl (vdmStep dm) []) k with _ | l0
    · rfl
    · exfalso
      obtain ⟨v', hv', hck⟩ := i5 (k, l0) (lookupA_mem _ _ _ hraw)
      exact hnone v' hv' hck

/-- Witness for C6: on the concrete sample, venue 1's entry is non-empty,
de-duplicated, sorted ascending, and keeps first-occurrence formatting. -/
theorem venueDateMap_spec_witness :
    sampleOpts6 ≠ []
    ∧ (sampleOpts6.map DateOption.dateKey).Nodup
    ∧ sampleOpts6.Sorted
        (fun a b => sampleDM.keyTime a.dateKey ≤ sampleDM.keyTime b.dateKey)
    ∧ ∀ e ∈ sampleOpts6, firstFor sampleDM sampleVenues6 "1" e.dateKey = some e :=
  (venueDateMap_spec sampleDM sampleVenues6).1 "1" sampleOpts6 (by decide)
